import Mathlib

/-!
The gospi MCP23S17 relay driver over SPI: a shallow embedding of `main.go` and
`mcp23s17/mcp23s17.go`.

* `uint8` values are natural numbers; a conversion `uint8(e)` of an `int`
  expression is written `e % 256`.
* The SPI connection (`spi.Conn` of periph.io) is an external collaborator.  It
  is a parameter `Conn σ`: a transfer function over an arbitrary bus state `σ`.
  The driver methods thread that state explicitly.
* `fmt.Printf` narration and `time.Sleep` pacing have no effect on the bus and
  are left out.
-/

namespace Gospi

/-! ## Package `mcp23s17`: register map -/

namespace mcp23s17

/-- I/O direction A. -/
def IoDirA : Nat := 0x00
/-- I/O direction B. -/
def IoDirB : Nat := 0x01
/-- I/O polarity A. -/
def IPolA : Nat := 0x02
/-- I/O polarity B. -/
def IPolB : Nat := 0x03
/-- Interrupt enable A. -/
def GpIntEnA : Nat := 0x04
/-- Interrupt enable B. -/
def GpIntEnB : Nat := 0x05
/-- Register default value A. -/
def DefValA : Nat := 0x06
/-- Register default value B. -/
def DefValB : Nat := 0x07
/-- Interrupt control A. -/
def IntConA : Nat := 0x08
/-- Interrupt control B. -/
def IntConB : Nat := 0x09
/-- I/O config. -/
def IoCon : Nat := 0x0A
/-- Port A pullups. -/
def GpPuA : Nat := 0x0C
/-- Port B pullups. -/
def GpPuB : Nat := 0x0D
/-- Interrupt flag A. -/
def IntFA : Nat := 0x0E
/-- Interrupt flag B. -/
def IntFB : Nat := 0x0F
/-- Interrupt capture A. -/
def IntCapA : Nat := 0x10
/-- Interrupt capture B. -/
def IntCapB : Nat := 0x11
/-- Port A. -/
def GpIoA : Nat := 0x12
/-- Port B. -/
def GpIoB : Nat := 0x13
/-- Output latch A. -/
def OLatA : Nat := 0x14
/-- Output latch B. -/
def OLatB : Nat := 0x15

/-- Addressing mode. -/
def BankOff : Nat := 0x00
/-- Addressing mode bit of the I/O config byte. -/
def BankOn : Nat := 0x80
/-- Interrupt mirror bit. -/
def IntMirrorOn : Nat := 0x40
/-- Interrupt mirror off. -/
def IntMirrorOff : Nat := 0x00
/-- Incrementing address pointer bit. -/
def SeqOpOff : Nat := 0x20
/-- Incrementing address pointer on. -/
def SeqOpOn : Nat := 0x00
/-- Slew rate bit. -/
def DisSlwOn : Nat := 0x10
/-- Slew rate off. -/
def DisSlwOff : Nat := 0x00
/-- Hardware addressing bit. -/
def HaEnOn : Nat := 0x08
/-- Hardware addressing off. -/
def HaEnOff : Nat := 0x00
/-- Open drain for interrupts bit. -/
def ODrOn : Nat := 0x04
/-- Open drain for interrupts off. -/
def ODrOff : Nat := 0x00
/-- Interrupt polarity bit. -/
def IntPolHigh : Nat := 0x02
/-- Interrupt polarity low. -/
def IntPolLow : Nat := 0x00

/-- Write command bit. -/
def WriteCmd : Nat := 0
/-- Read command bit. -/
def ReadCmd : Nat := 1

end mcp23s17

/-! ## Package `main`: constants -/

/-- U1 Matrix 1 - Bank 1. -/
def chipAddrU1 : Nat := 0x40
/-- U2 Matrix 1 - Bank 2. -/
def chipAddrU2 : Nat := 0x42
/-- U3 Matrix 1 - Bank 3. -/
def chipAddrU3 : Nat := 0x44
/-- U4 Matrix 2 - Bank 1. -/
def chipAddrU4 : Nat := 0x48
/-- U5 Matrix 2 - Bank 2. -/
def chipAddrU5 : Nat := 0x4A
/-- U6 Matrix 2 - Bank 3. -/
def chipAddrU6 : Nat := 0x4C
/-- The I/O config byte `0000 1100`. -/
def ioConByte : Nat := 0x0C

/-- The slice of all chip addresses used for looping. -/
def spiAddressMap : List Nat := [0x40, 0x42, 0x44, 0x48, 0x4A, 0x4C]

/-! ## The SPI connection -/

/-- A Go `error` value, identified with its message. -/
abbrev Error := String

/-- The connection `s.conn`.  `Tx st w r` is the call `conn.Tx(w, r)` made in bus
state `st` with request bytes `w` and receive buffer `r`; it yields the returned
error (`none` for `nil`), the contents of the receive buffer after the call, and
the next bus state. -/
structure Conn (σ : Type) where
  /-- One full-duplex transfer. -/
  Tx : σ → List Nat → List Nat → (Option Error × List Nat) × σ

/-- The method `spiWrite`: writes `value` to `register` of the chip at `address`.
Returns the error of the transfer and the next bus state. -/
def spiWrite {σ : Type} (c : Conn σ) (s : σ) (address register value : Nat) :
    Option Error × σ :=
  let write := [address, register, value]
  let read := List.replicate write.length 0
  match c.Tx s write read with
  | ((some err, _), s1) => (some err, s1)
  | ((none, _), s1) => (none, s1)

/-- The method `spiRead`: reads `register` of the chip at `address`.  Returns the
pair `(value, error)` and the next bus state.  The receive buffer is a `[]byte`
of length 3, so `read[2]` is the element at index 2 as a byte. -/
def spiRead {σ : Type} (c : Conn σ) (s : σ) (address register : Nat) :
    (Nat × Option Error) × σ :=
  let write := [address ||| mcp23s17.ReadCmd, register, 0xDB]
  let read := List.replicate write.length 0
  match c.Tx s write read with
  | ((some err, _), s1) => ((0, some err), s1)
  | ((none, read1), s1) => ((read1.getD 2 0 % 256, none), s1)

/-- The method `configureMCPChips`: loops through `spiAddressMap` to set the
IOCON byte, then loops again to set `IoDirA` and `IoDirB` to outputs.  The
errors returned by `spiWrite` are dropped, as in the source. -/
def configureMCPChips {σ : Type} (c : Conn σ) (s : σ) : σ :=
  let s1 := spiAddressMap.foldl
    (fun st addr => (spiWrite c st addr mcp23s17.IoCon ioConByte).2) s
  spiAddressMap.foldl
    (fun st addr =>
      let st1 := (spiWrite c st addr mcp23s17.IoDirA 0x00).2
      (spiWrite c st1 addr mcp23s17.IoDirB 0x00).2) s1

/-- The method `setRelayState`.  The three-way branch on `pin` selects the
registers (and the normalised pin), or returns without touching the bus.  The
error results of `spiRead` and `spiWrite` are dropped (`_` in the source).
`setMask` and `clearMask` are Go `int`s, converted with `uint8(...)` where they
are combined with the register value. -/
def setRelayState {σ : Type} (c : Conn σ) (s : σ) (address pin value : Nat) : σ :=
  let sel : Option (Nat × Nat × Nat) :=
    if 0 ≤ pin ∧ pin ≤ 7 then
      some (pin, mcp23s17.IoDirA, mcp23s17.OLatA)
    else if 8 ≤ pin ∧ pin < 16 then
      some (pin % 8, mcp23s17.IoDirB, mcp23s17.OLatB)
    else
      none
  match sel with
  | none => s
  | some (pin, ioDirReg, olatReg) =>
    let r1 := spiRead c s address ioDirReg
    let ioDirRegValue := r1.1.1
    if ioDirRegValue ≠ 0 then
      r1.2
    else
      let setMask := 0x01 <<< pin
      let clearMask := setMask ^^^ 0xFF
      let r2 := spiRead c r1.2 address olatReg
      let prevRegValue := r2.1.1
      let newRegValue :=
        if value = 0 then prevRegValue &&& (clearMask % 256)
        else prevRegValue ||| (setMask % 256)
      let w := spiWrite c r2.2 address olatReg newRegValue
      let r3 := spiRead c w.2 address olatReg
      r3.2

/-- The first pin loop of `main`: `setRelayState(chipAddrU6, uint8(pin), 0x01)`
for `pin` from 0 to 15. -/
def mainLatchLoop {σ : Type} (c : Conn σ) (s : σ) : σ :=
  (List.range 16).foldl (fun st pin => setRelayState c st chipAddrU6 (pin % 256) 0x01) s

/-- The second pin loop of `main`: `setRelayState(chipAddrU6, uint8(pin), 0x0)`
for `pin` from 0 to 15. -/
def mainUnlatchLoop {σ : Type} (c : Conn σ) (s : σ) : σ :=
  (List.range 16).foldl (fun st pin => setRelayState c st chipAddrU6 (pin % 256) 0x0) s

/-- The bus activity of `main` between connecting and closing the port:
`configureMCPChips`, then the latch loop, then the unlatch loop. -/
def mainBus {σ : Type} (c : Conn σ) (s : σ) : σ :=
  mainUnlatchLoop c (mainLatchLoop c (configureMCPChips c s))

/-! ## Observing the bus -/

/-- One completed call of `conn.Tx`: the request bytes, the error returned and
the receive buffer afterwards. -/
structure Transfer where
  /-- The request bytes handed to the bus. -/
  request : List Nat
  /-- The error the bus returned. -/
  err : Option Error
  /-- The receive buffer after the call. -/
  response : List Nat
deriving DecidableEq, Repr

/-- A connection that behaves like `c` and appends every transfer to a log kept
next to the bus state (oldest first). -/
def recorder {σ : Type} (c : Conn σ) : Conn (σ × List Transfer) :=
  ⟨fun st w r =>
    let out := c.Tx st.1 w r
    (out.1, (out.2, st.2 ++ [Transfer.mk w out.1.1 out.1.2]))⟩

/-- The requests sent by `setRelayState`, in order, starting from bus state `s`. -/
def relayRequests {σ : Type} (c : Conn σ) (s : σ) (address pin value : Nat) :
    List (List Nat) :=
  (setRelayState (recorder c) (s, []) address pin value).2.map Transfer.request

/-- The requests sent by `configureMCPChips`, in order, starting from bus state
`s`. -/
def configRequests {σ : Type} (c : Conn σ) (s : σ) : List (List Nat) :=
  (configureMCPChips (recorder c) (s, [])).2.map Transfer.request

/-- The requests sent by `mainBus`, in order, starting from bus state `s`. -/
def mainRequests {σ : Type} (c : Conn σ) (s : σ) : List (List Nat) :=
  (mainBus (recorder c) (s, [])).2.map Transfer.request

/-! ## A register-file device -/

/-- Register contents of the chips on the bus: chip address, register, byte. -/
abbrev Regs := Nat → Nat → Nat

/-- The register contents after storing `v` in register `reg` of chip `a`. -/
def storeReg (regs : Regs) (a reg v : Nat) : Regs :=
  fun a1 reg1 => if a1 = a ∧ reg1 = reg then v else regs a1 reg1

/-- A bus of devices that answer as a register file and never fail: a 3-byte
request whose first byte has the low bit set reads the register named by the
second byte of the chip named by the remaining bits (the value arrives in the
third byte of the response); a 3-byte request whose first byte has the low bit
clear stores the third byte in that register.  Other requests are ignored. -/
def chipBus : Conn Regs :=
  ⟨fun regs w r =>
    match w with
    | [a, reg, v] =>
      if a % 2 = 1 then
        ((none, [0, 0, regs (a - 1) reg]), regs)
      else
        ((none, r), storeReg regs a reg v)
    | _ => ((none, r), regs)⟩

/-- A bus on which the next `st.1` transfers fail with a transport error and do
not reach the devices; once that count is used up it behaves like `chipBus` on
the register file `st.2`. -/
def flakyBus : Conn (Nat × Regs) :=
  ⟨fun st w r =>
    match st.1 with
    | 0 =>
      let out := chipBus.Tx st.2 w r
      (out.1, (0, out.2))
    | n + 1 => ((some "transport error", r), (n, st.2))⟩

/-- Register contents with every direction register at `0` (all outputs) and
every output latch holding the byte `b`. -/
def outputRegs (b : Nat) : Regs :=
  fun _ reg => if reg = mcp23s17.OLatA ∨ reg = mcp23s17.OLatB then b else 0

/-- Register contents with every direction register at `0xFF` (all inputs) and
every other register at `0`. -/
def inputRegs : Regs :=
  fun _ reg => if reg = mcp23s17.IoDirA ∨ reg = mcp23s17.IoDirB then 0xFF else 0

/-! # Lemmas -/

/-! ## Transfers seen through the recorder -/

theorem spiRead_recorder {σ : Type} (c : Conn σ) (s : σ) (t : List Transfer)
    (address register : Nat) :
    spiRead (recorder c) (s, t) address register =
      ((spiRead c s address register).1,
        ((spiRead c s address register).2,
          t ++ [Transfer.mk [address ||| 1, register, 0xDB]
            (c.Tx s [address ||| 1, register, 0xDB] [0, 0, 0]).1.1
            (c.Tx s [address ||| 1, register, 0xDB] [0, 0, 0]).1.2])) := by
  unfold spiRead recorder
  simp only [mcp23s17.ReadCmd, List.length_cons, List.length_nil, List.replicate]
  rcases h : c.Tx s [address ||| 1, register, 0xDB] [0, 0, 0] with ⟨⟨e, r⟩, s1⟩
  cases e <;> simp

theorem spiWrite_recorder {σ : Type} (c : Conn σ) (s : σ) (t : List Transfer)
    (address register value : Nat) :
    spiWrite (recorder c) (s, t) address register value =
      ((spiWrite c s address register value).1,
        ((spiWrite c s address register value).2,
          t ++ [Transfer.mk [address, register, value]
            (c.Tx s [address, register, value] [0, 0, 0]).1.1
            (c.Tx s [address, register, value] [0, 0, 0]).1.2])) := by
  unfold spiWrite recorder
  simp only [List.length_cons, List.length_nil, List.replicate]
  rcases h : c.Tx s [address, register, value] [0, 0, 0] with ⟨⟨e, r⟩, s1⟩
  cases e <;> simp

theorem spiRead_lt {σ : Type} (c : Conn σ) (s : σ) (address register : Nat) :
    (spiRead c s address register).1.1 < 256 := by
  unfold spiRead
  simp only [List.length_cons, List.length_nil, List.replicate]
  rcases c.Tx s [address ||| mcp23s17.ReadCmd, register, 0xDB] [0, 0, 0] with ⟨⟨e, r⟩, s1⟩
  cases e
  · exact Nat.mod_lt _ (by decide)
  · show 0 < 256
    decide

/-! ## The masks -/

theorem setMask_byte (k : Nat) (hk : k < 8) : (0x01 <<< k) % 256 = 1 <<< k := by
  interval_cases k <;> rfl

theorem clearMask_byte (k : Nat) (hk : k < 8) :
    ((0x01 <<< k) ^^^ 0xFF) % 256 = 0xFF - 1 <<< k := by
  interval_cases k <;> rfl

theorem testBit_setMask (k i : Nat) : (1 <<< k).testBit i = decide (i = k) := by
  rw [Nat.one_shiftLeft, Nat.testBit_two_pow]
  by_cases h : k = i
  · simp [h]
  · have h2 : ¬ i = k := fun e => h e.symm
    simp [h, h2]

theorem testBit_clearMask (k i : Nat) (hk : k < 8) :
    (0xFF - 1 <<< k).testBit i = (decide (i < 8) && !decide (i = k)) := by
  rw [← clearMask_byte k hk]
  have h256 : (256 : Nat) = 2 ^ 8 := by norm_num
  have h255 : (0xFF : Nat) = 2 ^ 8 - 1 := by norm_num
  rw [h256, Nat.testBit_mod_two_pow, Nat.testBit_xor, testBit_setMask, h255,
    Nat.testBit_two_pow_sub_one]
  by_cases h8 : i < 8 <;> by_cases hik : i = k <;> simp [h8, hik]

/-! ## The requests of `setRelayState` -/

/-- The register selection of `setRelayState`, as a relation between the pin and
the two registers: pins `0..7` use the A half, pins `8..15` the B half. -/
theorem half_select {pin dir olat : Nat}
    (hsel : (pin ≤ 7 ∧ dir = mcp23s17.IoDirA ∧ olat = mcp23s17.OLatA) ∨
      (8 ≤ pin ∧ pin < 16 ∧ dir = mcp23s17.IoDirB ∧ olat = mcp23s17.OLatB)) :
    pin < 16 ∧ dir = (if pin ≤ 7 then mcp23s17.IoDirA else mcp23s17.IoDirB) ∧
      olat = (if pin ≤ 7 then mcp23s17.OLatA else mcp23s17.OLatB) := by
  rcases hsel with ⟨h7, hd, ho⟩ | ⟨h8, h16, hd, ho⟩
  · exact ⟨by omega, by simp [h7, hd], by simp [h7, ho]⟩
  · have h7 : ¬ pin ≤ 7 := by omega
    exact ⟨h16, by simp [h7, hd], by simp [h7, ho]⟩

theorem relayRequests_abort {σ : Type} (c : Conn σ) (s : σ) (address pin value : Nat)
    (hpin : pin < 16)
    (hdir : (spiRead c s address
      (if pin ≤ 7 then mcp23s17.IoDirA else mcp23s17.IoDirB)).1.1 ≠ 0) :
    relayRequests c s address pin value =
      [[address ||| 1, if pin ≤ 7 then mcp23s17.IoDirA else mcp23s17.IoDirB, 0xDB]] := by
  unfold relayRequests setRelayState
  by_cases h7 : pin ≤ 7
  · simp only [h7, if_true] at hdir
    simp [h7, spiRead_recorder, hdir]
  · have h8 : 8 ≤ pin := by omega
    simp only [h7, if_false] at hdir
    simp [h7, h8, hpin, spiRead_recorder, hdir]

theorem relayRequests_proceed {σ : Type} (c : Conn σ) (s : σ) (address pin value : Nat)
    (hpin : pin < 16)
    (hdir : (spiRead c s address
      (if pin ≤ 7 then mcp23s17.IoDirA else mcp23s17.IoDirB)).1.1 = 0) :
    relayRequests c s address pin value =
      [[address ||| 1, if pin ≤ 7 then mcp23s17.IoDirA else mcp23s17.IoDirB, 0xDB],
       [address ||| 1, if pin ≤ 7 then mcp23s17.OLatA else mcp23s17.OLatB, 0xDB],
       [address, if pin ≤ 7 then mcp23s17.OLatA else mcp23s17.OLatB,
         if value = 0 then
           (spiRead c (spiRead c s address
             (if pin ≤ 7 then mcp23s17.IoDirA else mcp23s17.IoDirB)).2 address
             (if pin ≤ 7 then mcp23s17.OLatA else mcp23s17.OLatB)).1.1
             &&& (((1 <<< (pin % 8)) ^^^ 0xFF) % 256)
         else
           (spiRead c (spiRead c s address
             (if pin ≤ 7 then mcp23s17.IoDirA else mcp23s17.IoDirB)).2 address
             (if pin ≤ 7 then mcp23s17.OLatA else mcp23s17.OLatB)).1.1
             ||| ((1 <<< (pin % 8)) % 256)],
       [address ||| 1, if pin ≤ 7 then mcp23s17.OLatA else mcp23s17.OLatB, 0xDB]] := by
  unfold relayRequests setRelayState
  by_cases h7 : pin ≤ 7
  · simp only [h7, if_true] at hdir
    have hm : pin % 8 = pin := Nat.mod_eq_of_lt (by omega)
    simp [h7, spiRead_recorder, spiWrite_recorder, hdir, hm]
  · have h8 : 8 ≤ pin := by omega
    simp only [h7, if_false] at hdir
    simp [h7, h8, hpin, spiRead_recorder, spiWrite_recorder, hdir]

/-! ## The driver on the register-file bus -/

theorem or_one_of_even (a : Nat) (h : a % 2 = 0) : a ||| 1 = a + 1 := by
  have h1 : (a ||| 1) % 2 = 1 := Nat.or_mod_two_eq_one.mpr (Or.inr rfl)
  have h2 : (a ||| 1) / 2 = a / 2 := by rw [Nat.or_div_two]; simp
  omega

theorem or_one_of_odd (a : Nat) (h : a % 2 = 1) : a ||| 1 = a := by
  have h1 : (a ||| 1) % 2 = 1 := Nat.or_mod_two_eq_one.mpr (Or.inr rfl)
  have h2 : (a ||| 1) / 2 = a / 2 := by rw [Nat.or_div_two]; simp
  omega

theorem spiRead_chipBus (regs : Regs) (address register : Nat) :
    spiRead chipBus regs address register =
      ((regs ((address ||| 1) - 1) register % 256, none), regs) := by
  have h1 : (address ||| 1) % 2 = 1 := Nat.or_mod_two_eq_one.mpr (Or.inr rfl)
  simp [spiRead, chipBus, mcp23s17.ReadCmd, h1]

theorem spiWrite_chipBus (regs : Regs) (address register value : Nat) :
    spiWrite chipBus regs address register value =
      (none, if address % 2 = 1 then regs else storeReg regs address register value) := by
  by_cases h : address % 2 = 1 <;> simp [spiWrite, chipBus, h]

theorem setRelayState_chipBus (regs : Regs) (address pin value : Nat) (hpin : pin < 16) :
    setRelayState chipBus regs address pin value =
      if regs ((address ||| 1) - 1)
          (if pin ≤ 7 then mcp23s17.IoDirA else mcp23s17.IoDirB) % 256 ≠ 0 then
        regs
      else if address % 2 = 1 then
        regs
      else
        storeReg regs address (if pin ≤ 7 then mcp23s17.OLatA else mcp23s17.OLatB)
          (if value = 0 then
            regs ((address ||| 1) - 1)
              (if pin ≤ 7 then mcp23s17.OLatA else mcp23s17.OLatB) % 256
              &&& (0xFF - 1 <<< (pin % 8))
          else
            regs ((address ||| 1) - 1)
              (if pin ≤ 7 then mcp23s17.OLatA else mcp23s17.OLatB) % 256
              ||| 1 <<< (pin % 8)) := by
  have hk : pin % 8 < 8 := Nat.mod_lt _ (by decide)
  unfold setRelayState
  by_cases h7 : pin ≤ 7
  · have hm : pin % 8 = pin := Nat.mod_eq_of_lt (by omega)
    simp only [h7, hm, Nat.zero_le, true_and, if_true, spiRead_chipBus, spiWrite_chipBus]
    rw [clearMask_byte pin (by omega), setMask_byte pin (by omega)]
  · have h8 : 8 ≤ pin := by omega
    simp only [h7, h8, hpin, Nat.zero_le, true_and, and_self, if_true, if_false,
      spiRead_chipBus, spiWrite_chipBus]
    rw [clearMask_byte _ hk, setMask_byte _ hk]

theorem testBit_byte (p i : Nat) (hp : p < 256) :
    (p.testBit i && decide (i < 8)) = p.testBit i := by
  by_cases h8 : i < 8
  · simp [h8]
  · have hf : p.testBit i = false :=
      Nat.testBit_lt_two_pow
        (lt_of_lt_of_le hp (Nat.pow_le_pow_right (by decide : 2 > 0) (by omega : 8 ≤ i)))
    simp [hf]

theorem set_then_clear (p k : Nat) (hp : p < 256) (hk : k < 8)
    (hbit : p.testBit k = false) :
    (p ||| 1 <<< k) &&& (0xFF - 1 <<< k) = p := by
  apply Nat.eq_of_testBit_eq
  intro i
  rw [Nat.testBit_land, Nat.testBit_lor, testBit_setMask, testBit_clearMask _ _ hk]
  by_cases hik : i = k
  · subst hik
    simp [hbit]
  · have := testBit_byte p i hp
    simp only [hik, decide_False, Bool.or_false, Bool.not_false, Bool.and_true]
    exact this

theorem set_byte_lt (p k : Nat) (hp : p < 256) (hk : k < 8) : p ||| 1 <<< k < 256 := by
  have hm : 1 <<< k < 2 ^ 8 := by interval_cases k <;> decide
  exact Nat.or_lt_two_pow (by simpa using hp) hm

theorem set_idem (p k : Nat) : (p ||| 1 <<< k) ||| 1 <<< k = p ||| 1 <<< k := by
  rw [Nat.lor_assoc, Nat.or_self]

theorem setRelayState_chipBus_odd (regs : Regs) (address pin value : Nat)
    (hpin : pin < 16) (hodd : address % 2 = 1) :
    setRelayState chipBus regs address pin value = regs := by
  rw [setRelayState_chipBus regs address pin value hpin]
  simp [hodd]

theorem setRelayState_chipBus_even (regs : Regs) (address pin value : Nat)
    (hpin : pin < 16) (heven : address % 2 = 0)
    (hdir : regs address (if pin ≤ 7 then mcp23s17.IoDirA else mcp23s17.IoDirB) = 0) :
    setRelayState chipBus regs address pin value =
      storeReg regs address (if pin ≤ 7 then mcp23s17.OLatA else mcp23s17.OLatB)
        (if value = 0 then
          regs address (if pin ≤ 7 then mcp23s17.OLatA else mcp23s17.OLatB) % 256
            &&& (0xFF - 1 <<< (pin % 8))
        else
          regs address (if pin ≤ 7 then mcp23s17.OLatA else mcp23s17.OLatB) % 256
            ||| 1 <<< (pin % 8)) := by
  have hk : (address ||| 1) - 1 = address := by
    rw [or_one_of_even address heven]; omega
  have hne : ¬ address % 2 = 1 := by omega
  rw [setRelayState_chipBus regs address pin value hpin, hk, hdir]
  simp [hne]

theorem storeReg_same (regs : Regs) (a reg v : Nat) : storeReg regs a reg v a reg = v := by
  simp [storeReg]

theorem storeReg_dir (regs : Regs) (a pin v : Nat) :
    storeReg regs a (if pin ≤ 7 then mcp23s17.OLatA else mcp23s17.OLatB) v a
        (if pin ≤ 7 then mcp23s17.IoDirA else mcp23s17.IoDirB) =
      regs a (if pin ≤ 7 then mcp23s17.IoDirA else mcp23s17.IoDirB) := by
  by_cases h7 : pin ≤ 7 <;>
    simp [storeReg, h7, mcp23s17.OLatA, mcp23s17.OLatB, mcp23s17.IoDirA, mcp23s17.IoDirB]

theorem storeReg_twice (regs : Regs) (a reg v w a1 reg1 : Nat) :
    storeReg (storeReg regs a reg v) a reg w a1 reg1 = storeReg regs a reg w a1 reg1 := by
  unfold storeReg
  by_cases h : a1 = a ∧ reg1 = reg <;> simp [h]

theorem storeReg_self (regs : Regs) (a reg a1 reg1 : Nat) :
    storeReg regs a reg (regs a reg) a1 reg1 = regs a1 reg1 := by
  unfold storeReg
  by_cases h : a1 = a ∧ reg1 = reg
  · simp [h]
  · simp [h]

theorem land_fe_of_even (a : Nat) (hlt : a < 256) (heven : a % 2 = 0) : a &&& 0xFE = a := by
  have hfe : (0xFE : Nat) = 0xFF - 1 <<< 0 := by decide
  apply Nat.eq_of_testBit_eq
  intro i
  rw [hfe, Nat.testBit_land, testBit_clearMask 0 i (by decide)]
  by_cases hi : i = 0
  · subst hi
    simp [Nat.testBit_zero, heven]
  · have := testBit_byte a i hlt
    simp only [hi, decide_False, Bool.not_false, Bool.and_true]
    exact this

/-! # Claims -/

/-- C1: for every chip address, every pin in `0..15` and every value, when the
read of the direction register of the selected half returns `0` and the read of
the output latch returns `prev`, the write request carries the byte
`prev ||| (1 <<< (pin % 8))` if `value` is non-zero, and `prev` with bit
`pin % 8` masked out by the 8-bit complement `0xFF - (1 <<< (pin % 8))` if
`value` is `0`. -/
theorem setRelayState_written_byte {σ : Type} (c : Conn σ) (s : σ)
    (address pin value dir olat prev : Nat)
    (hsel : (pin ≤ 7 ∧ dir = mcp23s17.IoDirA ∧ olat = mcp23s17.OLatA) ∨
      (8 ≤ pin ∧ pin < 16 ∧ dir = mcp23s17.IoDirB ∧ olat = mcp23s17.OLatB))
    (hdir : (spiRead c s address dir).1.1 = 0)
    (hprev : (spiRead c (spiRead c s address dir).2 address olat).1.1 = prev) :
    relayRequests c s address pin value =
      [[address ||| 1, dir, 0xDB],
       [address ||| 1, olat, 0xDB],
       [address, olat,
         if value = 0 then prev &&& (0xFF - (1 <<< (pin % 8)))
         else prev ||| (1 <<< (pin % 8))],
       [address ||| 1, olat, 0xDB]] := by
  obtain ⟨hpin, hd, ho⟩ := half_select hsel
  have hk : pin % 8 < 8 := Nat.mod_lt _ (by decide)
  subst hd ho
  rw [relayRequests_proceed c s address pin value hpin hdir, hprev,
    clearMask_byte _ hk, setMask_byte _ hk]

/-- Witness for C1: chip `0x4C` with all latches at `0x21`, pin 12, value 1. -/
theorem setRelayState_written_byte_witness :
    relayRequests chipBus (outputRegs 0x21) 0x4C 12 1 =
      [[0x4D, 0x01, 0xDB], [0x4D, 0x15, 0xDB], [0x4C, 0x15, 0x31], [0x4D, 0x15, 0xDB]] :=
  setRelayState_written_byte chipBus (outputRegs 0x21) 0x4C 12 1 0x01 0x15 0x21
    (Or.inr ⟨by decide, by decide, rfl, rfl⟩) (by decide) (by decide)

/-- C2 (evaluation at the failing input): the direction registers of chip `0x4C`
hold `0xFF` (all inputs) and the first transfer, the direction-register read,
fails with a transport error.  `spiRead` then returns `0`, `setRelayState`
carries on, and the request `[0x4C, 0x14, 0x01]` stores `0x01` in output latch
`OLatA` although no successful read ever reported the direction register as
`0`. -/
theorem setRelayState_writes_after_failed_direction_read :
    (spiRead flakyBus (1, inputRegs) 0x4C mcp23s17.IoDirA).1 = (0, some "transport error") ∧
    (setRelayState (recorder flakyBus) ((1, inputRegs), []) 0x4C 0 0x01).2 =
      [Transfer.mk [0x4D, 0x00, 0xDB] (some "transport error") [0, 0, 0],
       Transfer.mk [0x4D, 0x14, 0xDB] none [0, 0, 0],
       Transfer.mk [0x4C, 0x14, 0x01] none [0, 0, 0],
       Transfer.mk [0x4D, 0x14, 0xDB] none [0, 0, 1]] ∧
    inputRegs 0x4C mcp23s17.IoDirA = 0xFF ∧
    (setRelayState flakyBus (1, inputRegs) 0x4C 0 0x01).2 0x4C mcp23s17.IoDirA = 0xFF ∧
    (setRelayState flakyBus (1, inputRegs) 0x4C 0 0x01).2 0x4C mcp23s17.OLatA = 0x01 := by
  refine ⟨rfl, rfl, rfl, rfl, rfl⟩

/-- C3: for every chip address, every pin in `0..15` and every value, if the
read of the direction register of the selected half returns a non-zero byte,
the only request `setRelayState` sends is that read: nothing is written to the
output latch, and the bus is left in the state the read left it in. -/
theorem setRelayState_direction_mismatch {σ : Type} (c : Conn σ) (s : σ)
    (address pin value dir olat : Nat)
    (hsel : (pin ≤ 7 ∧ dir = mcp23s17.IoDirA ∧ olat = mcp23s17.OLatA) ∨
      (8 ≤ pin ∧ pin < 16 ∧ dir = mcp23s17.IoDirB ∧ olat = mcp23s17.OLatB))
    (hdir : (spiRead c s address dir).1.1 ≠ 0) :
    relayRequests c s address pin value = [[address ||| 1, dir, 0xDB]] ∧
      (∀ v, [address, olat, v] ∉ relayRequests c s address pin value) ∧
      setRelayState c s address pin value = (spiRead c s address dir).2 := by
  obtain ⟨hpin, hd, ho⟩ := half_select hsel
  subst hd ho
  have hreq := relayRequests_abort c s address pin value hpin hdir
  refine ⟨hreq, ?_, ?_⟩
  · intro v hv
    rw [hreq] at hv
    simp only [List.mem_singleton, List.cons.injEq, and_true] at hv
    obtain ⟨-, h2, h3⟩ := hv
    by_cases h7 : pin ≤ 7
    · simp [h7, mcp23s17.OLatA, mcp23s17.IoDirA] at h2
    · simp [h7, mcp23s17.OLatB, mcp23s17.IoDirB] at h2
  · unfold setRelayState
    by_cases h7 : pin ≤ 7
    · simp only [h7, if_true] at hdir
      simp [h7, hdir]
    · have h8 : 8 ≤ pin := by omega
      simp only [h7, if_false] at hdir
      simp [h7, h8, hpin, hdir]

/-- Witness for C3: chip `0x40` with its direction registers at `0xFF`, pin 11. -/
theorem setRelayState_direction_mismatch_witness :
    relayRequests chipBus inputRegs 0x40 11 1 = [[0x41, 0x01, 0xDB]] ∧
      (∀ v, [0x40, 0x15, v] ∉ relayRequests chipBus inputRegs 0x40 11 1) ∧
      setRelayState chipBus inputRegs 0x40 11 1 = (spiRead chipBus inputRegs 0x40 0x01).2 :=
  setRelayState_direction_mismatch chipBus inputRegs 0x40 11 1 0x01 0x15
    (Or.inr ⟨by decide, by decide, rfl, rfl⟩) (by decide)

/-- C4: for every chip address, every value and every pin `≥ 16`,
`setRelayState` performs no bus transaction: the recorded log is unchanged (no
read and no write request is sent) and the bus state is the one it started in. -/
theorem setRelayState_pin_out_of_range {σ : Type} (c : Conn σ) (s : σ)
    (t : List Transfer) (address pin value : Nat) (hpin : 16 ≤ pin) :
    setRelayState (recorder c) (s, t) address pin value = (s, t) ∧
      relayRequests c s address pin value = [] ∧
      setRelayState c s address pin value = s := by
  have h7 : ¬ pin ≤ 7 := by omega
  have h16 : ¬ pin < 16 := by omega
  refine ⟨?_, ?_, ?_⟩
  · unfold setRelayState
    simp [h7, h16]
  · unfold relayRequests setRelayState
    simp [h7, h16]
  · unfold setRelayState
    simp [h7, h16]

/-- Witness for C4: pin 16 and pin 255 on chip `0x4C`. -/
theorem setRelayState_pin_out_of_range_witness :
    relayRequests chipBus (outputRegs 0) 0x4C 16 1 = [] ∧
      relayRequests chipBus (outputRegs 0) 0x4C 255 1 = [] :=
  ⟨(setRelayState_pin_out_of_range chipBus (outputRegs 0) [] 0x4C 16 1 (by decide)).2.1,
   (setRelayState_pin_out_of_range chipBus (outputRegs 0) [] 0x4C 255 1 (by decide)).2.1⟩

/-- C5: for every pin in `0..7`, `setRelayState` reads direction register
`IoDirA` (`0x00`) and reads and writes output latch `OLatA` (`0x14`); for every
pin in `8..15` it uses `IoDirB` (`0x01`) and `OLatB` (`0x15`); in both cases the
mask has its bit at position `pin % 8`.  The requests are the direction read
alone when that read returns a non-zero value, and otherwise the direction read,
the latch read, the latch write and the latch read-back. -/
theorem setRelayState_half_selection {σ : Type} (c : Conn σ) (s : σ)
    (address pin value : Nat) (hpin : pin < 16) :
    let dir := if pin ≤ 7 then 0x00 else 0x01
    let olat := if pin ≤ 7 then 0x14 else 0x15
    let r1 := spiRead c s address dir
    let prev := (spiRead c r1.2 address olat).1.1
    (mcp23s17.IoDirA = 0x00 ∧ mcp23s17.OLatA = 0x14 ∧
      mcp23s17.IoDirB = 0x01 ∧ mcp23s17.OLatB = 0x15) ∧
    relayRequests c s address pin value =
      if r1.1.1 ≠ 0 then
        [[address ||| 1, dir, 0xDB]]
      else
        [[address ||| 1, dir, 0xDB],
         [address ||| 1, olat, 0xDB],
         [address, olat,
           if value = 0 then prev &&& (0xFF - 2 ^ (pin % 8)) else prev ||| 2 ^ (pin % 8)],
         [address ||| 1, olat, 0xDB]] := by
  intro dir olat r1 prev
  refine ⟨⟨rfl, rfl, rfl, rfl⟩, ?_⟩
  have hk : pin % 8 < 8 := Nat.mod_lt _ (by decide)
  have hd : dir = (if pin ≤ 7 then mcp23s17.IoDirA else mcp23s17.IoDirB) := rfl
  have ho : olat = (if pin ≤ 7 then mcp23s17.OLatA else mcp23s17.OLatB) := rfl
  by_cases h0 : r1.1.1 = 0
  · have h0c : (spiRead c s address
        (if pin ≤ 7 then mcp23s17.IoDirA else mcp23s17.IoDirB)).1.1 = 0 := h0
    rw [relayRequests_proceed c s address pin value hpin h0c, clearMask_byte _ hk,
      setMask_byte _ hk, Nat.one_shiftLeft]
    simp only [h0, ne_eq, not_true_eq_false, if_false]
    rfl
  · have h0c : (spiRead c s address
        (if pin ≤ 7 then mcp23s17.IoDirA else mcp23s17.IoDirB)).1.1 ≠ 0 := h0
    rw [relayRequests_abort c s address pin value hpin h0c]
    simp only [ne_eq, h0, not_false_eq_true, if_true]
    rfl

/-- Witness for C5: pin 3 uses the A half, pin 11 the B half, both with bit 3. -/
theorem setRelayState_half_selection_witness :
    relayRequests chipBus (outputRegs 0) 0x40 3 1 =
        [[0x41, 0x00, 0xDB], [0x41, 0x14, 0xDB], [0x40, 0x14, 0x08], [0x41, 0x14, 0xDB]] ∧
      relayRequests chipBus (outputRegs 0) 0x40 11 1 =
        [[0x41, 0x01, 0xDB], [0x41, 0x15, 0xDB], [0x40, 0x15, 0x08], [0x41, 0x15, 0xDB]] :=
  ⟨(setRelayState_half_selection chipBus (outputRegs 0) 0x40 3 1 (by decide)).2,
   (setRelayState_half_selection chipBus (outputRegs 0) 0x40 11 1 (by decide)).2⟩

/-- C6: for every pin in `0..15`, every previous output-latch byte `prev` and
both desired states, the byte `w` that `setRelayState` writes agrees with `prev`
in every bit position other than `pin % 8`, and its bit `pin % 8` is set exactly
when the desired state is on (`value` non-zero). -/
theorem setRelayState_bit_frame {σ : Type} (c : Conn σ) (s : σ)
    (address pin value dir olat prev : Nat)
    (hsel : (pin ≤ 7 ∧ dir = mcp23s17.IoDirA ∧ olat = mcp23s17.OLatA) ∨
      (8 ≤ pin ∧ pin < 16 ∧ dir = mcp23s17.IoDirB ∧ olat = mcp23s17.OLatB))
    (hdir : (spiRead c s address dir).1.1 = 0)
    (hprev : (spiRead c (spiRead c s address dir).2 address olat).1.1 = prev) :
    ∃ w, relayRequests c s address pin value =
        [[address ||| 1, dir, 0xDB], [address ||| 1, olat, 0xDB],
         [address, olat, w], [address ||| 1, olat, 0xDB]] ∧
      (∀ i, i ≠ pin % 8 → w.testBit i = prev.testBit i) ∧
      (w.testBit (pin % 8) = true ↔ value ≠ 0) := by
  obtain ⟨hpin, hd, ho⟩ := half_select hsel
  have hk : pin % 8 < 8 := Nat.mod_lt _ (by decide)
  have hlt : prev < 256 := hprev ▸ spiRead_lt c _ address olat
  subst hd ho
  refine ⟨_, (relayRequests_proceed c s address pin value hpin hdir), ?_, ?_⟩
  · intro i hi
    rw [hprev, clearMask_byte _ hk, setMask_byte _ hk]
    by_cases hv : value = 0
    · simp only [hv, if_true, Nat.testBit_land, testBit_clearMask _ _ hk]
      by_cases h8 : i < 8
      · simp [h8, hi]
      · have hp : prev.testBit i = false :=
          Nat.testBit_lt_two_pow
            (lt_of_lt_of_le hlt (Nat.pow_le_pow_right (by decide : 2 > 0) (by omega : 8 ≤ i)))
        simp [hp]
    · simp only [hv, if_false, Nat.testBit_lor, testBit_setMask]
      simp [hi]
  · rw [hprev, clearMask_byte _ hk, setMask_byte _ hk]
    by_cases hv : value = 0
    · simp [hv, Nat.testBit_land, testBit_clearMask _ _ hk]
    · simp [hv, Nat.testBit_lor, testBit_setMask]

/-- Witness for C6: latch byte `0b10100000`, pin 5, off gives `0b10000000`. -/
theorem setRelayState_bit_frame_witness :
    relayRequests chipBus (outputRegs 0xA0) 0x40 5 0 =
        [[0x41, 0x00, 0xDB], [0x41, 0x14, 0xDB], [0x40, 0x14, 0x80], [0x41, 0x14, 0xDB]] ∧
      ∃ w, relayRequests chipBus (outputRegs 0xA0) 0x40 5 0 =
          [[0x41, 0x00, 0xDB], [0x41, 0x14, 0xDB], [0x40, 0x14, w], [0x41, 0x14, 0xDB]] ∧
        (∀ i, i ≠ 5 → w.testBit i = (0xA0).testBit i) ∧
        (w.testBit 5 = true ↔ 0 ≠ 0) :=
  ⟨by decide,
   setRelayState_bit_frame chipBus (outputRegs 0xA0) 0x40 5 0 0x00 0x14 0xA0
    (Or.inl ⟨by decide, rfl, rfl⟩) (by decide) (by decide)⟩

/-- C7: on the register-file bus with all direction registers at `0`, for every
address, every pin in `0..15` and every initial register contents, switching a
pin on twice in a row leaves every register (so every output-latch byte) as
switching it on once does; and for a chip address with the low bit clear that
one call does set bit `pin % 8` of the selected output latch. -/
theorem setRelayState_on_twice (regs : Regs) (address pin value : Nat)
    (hpin : pin < 16) (hon : value ≠ 0)
    (hdir : ∀ a, regs a mcp23s17.IoDirA = 0 ∧ regs a mcp23s17.IoDirB = 0) :
    (∀ a reg,
      setRelayState chipBus (setRelayState chipBus regs address pin value)
          address pin value a reg =
        setRelayState chipBus regs address pin value a reg) ∧
    (address % 2 = 0 →
      (setRelayState chipBus regs address pin value address
        (if pin ≤ 7 then mcp23s17.OLatA else mcp23s17.OLatB)).testBit (pin % 8) = true) := by
  have hk : pin % 8 < 8 := Nat.mod_lt _ (by decide)
  have hd : regs address (if pin ≤ 7 then mcp23s17.IoDirA else mcp23s17.IoDirB) = 0 := by
    by_cases h7 : pin ≤ 7
    · simpa [h7] using (hdir address).1
    · simpa [h7] using (hdir address).2
  rcases Nat.mod_two_eq_zero_or_one address with heven | hodd
  · have h1 := setRelayState_chipBus_even regs address pin value hpin heven hd
    simp only [hon, if_false] at h1
    have hlt : regs address (if pin ≤ 7 then mcp23s17.OLatA else mcp23s17.OLatB) % 256 < 256 :=
      Nat.mod_lt _ (by decide)
    refine ⟨?_, ?_⟩
    · intro a reg
      have hd1 : setRelayState chipBus regs address pin value address
          (if pin ≤ 7 then mcp23s17.IoDirA else mcp23s17.IoDirB) = 0 := by
        rw [h1, storeReg_dir, hd]
      rw [setRelayState_chipBus_even _ address pin value hpin heven hd1]
      simp only [hon, if_false]
      rw [h1, storeReg_same, Nat.mod_eq_of_lt (set_byte_lt _ _ hlt hk), set_idem,
        storeReg_twice]
    · intro _
      rw [h1, storeReg_same, Nat.testBit_lor, testBit_setMask]
      simp
  · have h1 := setRelayState_chipBus_odd regs address pin value hpin hodd
    refine ⟨?_, ?_⟩
    · intro a reg
      rw [h1, h1]
    · intro h
      omega

/-- Witness for C7: chip `0x40`, pin 3, starting from latch byte `0xA0`. -/
theorem setRelayState_on_twice_witness :
    setRelayState chipBus (outputRegs 0xA0) 0x40 3 1 0x40 0x14 = 0xA8 ∧
    (∀ a reg,
      setRelayState chipBus (setRelayState chipBus (outputRegs 0xA0) 0x40 3 1)
          0x40 3 1 a reg =
        setRelayState chipBus (outputRegs 0xA0) 0x40 3 1 a reg) :=
  ⟨by decide,
   (setRelayState_on_twice (outputRegs 0xA0) 0x40 3 1 (by decide) (by decide)
      (fun _ => ⟨rfl, rfl⟩)).1⟩

/-- C8: on the register-file bus with all direction registers at `0`, for every
pin in `0..15` and every initial output-latch byte whose bit `pin % 8` is clear,
switching the pin on and then off restores the initial register contents, the
output-latch byte included. -/
theorem setRelayState_on_then_off (regs : Regs) (address pin value : Nat)
    (hpin : pin < 16) (hon : value ≠ 0)
    (hdir : ∀ a, regs a mcp23s17.IoDirA = 0 ∧ regs a mcp23s17.IoDirB = 0)
    (hbyte : regs address (if pin ≤ 7 then mcp23s17.OLatA else mcp23s17.OLatB) < 256)
    (hclear : (regs address
      (if pin ≤ 7 then mcp23s17.OLatA else mcp23s17.OLatB)).testBit (pin % 8) = false) :
    ∀ a reg,
      setRelayState chipBus (setRelayState chipBus regs address pin value)
          address pin 0 a reg = regs a reg := by
  have hk : pin % 8 < 8 := Nat.mod_lt _ (by decide)
  have hd : regs address (if pin ≤ 7 then mcp23s17.IoDirA else mcp23s17.IoDirB) = 0 := by
    by_cases h7 : pin ≤ 7
    · simpa [h7] using (hdir address).1
    · simpa [h7] using (hdir address).2
  intro a reg
  rcases Nat.mod_two_eq_zero_or_one address with heven | hodd
  · have h1 := setRelayState_chipBus_even regs address pin value hpin heven hd
    simp only [hon, if_false] at h1
    have hd1 : setRelayState chipBus regs address pin value address
        (if pin ≤ 7 then mcp23s17.IoDirA else mcp23s17.IoDirB) = 0 := by
      rw [h1, storeReg_dir, hd]
    rw [setRelayState_chipBus_even _ address pin 0 hpin heven hd1]
    simp only [if_true]
    rw [h1, storeReg_same, Nat.mod_eq_of_lt hbyte,
      Nat.mod_eq_of_lt (set_byte_lt _ _ hbyte hk), set_then_clear _ _ hbyte hk hclear,
      storeReg_twice, storeReg_self]
  · rw [setRelayState_chipBus_odd regs address pin value hpin hodd,
      setRelayState_chipBus_odd regs address pin 0 hpin hodd]

/-- Witness for C8: latch byte `0b00000000`, pin 3: on gives `0b00001000`, off
restores `0b00000000`. -/
theorem setRelayState_on_then_off_witness :
    setRelayState chipBus (outputRegs 0) 0x40 3 1 0x40 0x14 = 0x08 ∧
    setRelayState chipBus (setRelayState chipBus (outputRegs 0) 0x40 3 1)
      0x40 3 0 0x40 0x14 = 0x00 ∧
    (∀ a reg,
      setRelayState chipBus (setRelayState chipBus (outputRegs 0) 0x40 3 1)
          0x40 3 0 a reg = outputRegs 0 a reg) :=
  ⟨by decide, by decide,
   setRelayState_on_then_off (outputRegs 0) 0x40 3 1 (by decide) (by decide)
      (fun _ => ⟨rfl, rfl⟩) (by decide) (by decide)⟩

/-- C9: for every chip address and register, the request `spiRead` sends is
exactly the 3 bytes `[address ||| 1, register, 0xDB]`, where `address ||| 1` is
the address with its low bit set and its other bits unchanged; and on a
successful transfer that leaves the bytes `[b0, b1, b2]` in the receive buffer,
`spiRead` returns the third byte `b2` with no error. -/
theorem spiRead_frame {σ : Type} (c : Conn σ) (s : σ) (address register : Nat) :
    (spiRead (recorder c) (s, []) address register).2.2.map Transfer.request =
      [[address ||| 1, register, 0xDB]] ∧
    ((address ||| 1) % 2 = 1 ∧ (address ||| 1) / 2 = address / 2) ∧
    (∀ b0 b1 b2 s1, b2 < 256 →
      c.Tx s [address ||| 1, register, 0xDB] [0, 0, 0] = ((none, [b0, b1, b2]), s1) →
      spiRead c s address register = ((b2, none), s1)) := by
  refine ⟨?_, ⟨?_, ?_⟩, ?_⟩
  · rw [spiRead_recorder]
    simp
  · exact Nat.or_mod_two_eq_one.mpr (Or.inr rfl)
  · rw [Nat.or_div_two]
    simp
  · intro b0 b1 b2 s1 hb htx
    unfold spiRead
    simp only [mcp23s17.ReadCmd, List.length_cons, List.length_nil, List.replicate, htx]
    simp [Nat.mod_eq_of_lt hb]

/-- Witness for C9: address `0x40`, register `0x14` gives the request
`[0x41, 0x14, 0xDB]`; with the latch at `0xA0` the read returns `0xA0`. -/
theorem spiRead_frame_witness :
    (spiRead (recorder chipBus) (outputRegs 0xA0, []) 0x40 0x14).2.2.map Transfer.request =
      [[0x41, 0x14, 0xDB]] ∧
    spiRead chipBus (outputRegs 0xA0) 0x40 0x14 = ((0xA0, none), outputRegs 0xA0) :=
  ⟨(spiRead_frame chipBus (outputRegs 0xA0) 0x40 0x14).1,
   (spiRead_frame chipBus (outputRegs 0xA0) 0x40 0x14).2.2 0 0 0xA0 (outputRegs 0xA0)
      (by decide) rfl⟩

/-- C10 as stated fails: for the 8-bit address `0x41` the request `spiWrite`
sends starts with `0x41`, not with `0x41 &&& 0xFE = 0x40`; the low bit is not
cleared. -/
theorem spiWrite_odd_address_keeps_low_bit :
    (spiWrite (recorder chipBus) (outputRegs 0, []) 0x41 0x14 0x08).2.2.map
        Transfer.request = [[0x41, 0x14, 0x08]] ∧
    (spiWrite (recorder chipBus) (outputRegs 0, []) 0x41 0x14 0x08).2.2.map
        Transfer.request ≠ [[0x41 &&& 0xFE, 0x14, 0x08]] := by
  decide

/-- C10 (amended): for every chip address, register and value, the request
`spiWrite` sends is exactly the 3 bytes `[address, register, value]`, the address
byte as given; for an 8-bit address whose low bit is `0` (as in every stored
chip address) this is the address with the read/write bit cleared. -/
theorem spiWrite_frame {σ : Type} (c : Conn σ) (s : σ) (address register value : Nat) :
    (spiWrite (recorder c) (s, []) address register value).2.2.map Transfer.request =
      [[address, register, value]] ∧
    (address < 256 → address % 2 = 0 →
      (spiWrite (recorder c) (s, []) address register value).2.2.map Transfer.request =
        [[address &&& 0xFE, register, value]]) := by
  have h : (spiWrite (recorder c) (s, []) address register value).2.2.map Transfer.request =
      [[address, register, value]] := by
    rw [spiWrite_recorder]
    simp
  refine ⟨h, ?_⟩
  intro hlt heven
  rw [h, land_fe_of_even address hlt heven]

/-- Witness for C10: address `0x40`, register `0x14`, value `0x08` gives the
request `[0x40, 0x14, 0x08]`. -/
theorem spiWrite_frame_witness :
    (spiWrite (recorder chipBus) (outputRegs 0, []) 0x40 0x14 0x08).2.2.map
        Transfer.request = [[0x40, 0x14, 0x08]] :=
  (spiWrite_frame chipBus (outputRegs 0) 0x40 0x14 0x08).2 (by decide) (by decide)

/-! # Lemmas for the configuration pass and the pin loops -/

/-! ## The requests of `configureMCPChips` -/

theorem configureMCPChips_recorder {σ : Type} (c : Conn σ) (s : σ) (t : List Transfer) :
    (configureMCPChips (recorder c) (s, t)).1 = configureMCPChips c s ∧
    (configureMCPChips (recorder c) (s, t)).2.map Transfer.request =
      t.map Transfer.request ++
        [[0x40, 0x0A, 0x0C], [0x42, 0x0A, 0x0C], [0x44, 0x0A, 0x0C],
         [0x48, 0x0A, 0x0C], [0x4A, 0x0A, 0x0C], [0x4C, 0x0A, 0x0C],
         [0x40, 0x00, 0x00], [0x40, 0x01, 0x00], [0x42, 0x00, 0x00], [0x42, 0x01, 0x00],
         [0x44, 0x00, 0x00], [0x44, 0x01, 0x00], [0x48, 0x00, 0x00], [0x48, 0x01, 0x00],
         [0x4A, 0x00, 0x00], [0x4A, 0x01, 0x00], [0x4C, 0x00, 0x00], [0x4C, 0x01, 0x00]] := by
  constructor
  · simp [configureMCPChips, spiAddressMap, List.foldl, spiWrite_recorder]
  · simp [configureMCPChips, spiAddressMap, List.foldl, spiWrite_recorder,
      mcp23s17.IoCon, mcp23s17.IoDirA, mcp23s17.IoDirB, ioConByte]

/-! ## `setRelayState` seen through the recorder -/

theorem setRelayState_recorder {σ : Type} (c : Conn σ) (s : σ) (t : List Transfer)
    (address pin value : Nat) :
    (setRelayState (recorder c) (s, t) address pin value).1 =
        setRelayState c s address pin value ∧
      (setRelayState (recorder c) (s, t) address pin value).2 =
        t ++ (setRelayState (recorder c) (s, []) address pin value).2 := by
  unfold setRelayState
  by_cases h7 : pin ≤ 7
  · by_cases hd : (spiRead c s address mcp23s17.IoDirA).1.1 = 0
    · simp [h7, spiRead_recorder, spiWrite_recorder, hd]
    · simp [h7, spiRead_recorder, spiWrite_recorder, hd]
  · by_cases h16 : pin < 16
    · have h8 : 8 ≤ pin := by omega
      by_cases hd : (spiRead c s address mcp23s17.IoDirB).1.1 = 0
      · simp [h7, h8, h16, spiRead_recorder, spiWrite_recorder, hd]
      · simp [h7, h8, h16, spiRead_recorder, spiWrite_recorder, hd]
    · simp [h7, h16]

theorem relayRequests_shape {σ : Type} (c : Conn σ) (s : σ) (address pin value : Nat) :
    relayRequests c s address pin value = [] ∨
    (∃ dir, relayRequests c s address pin value = [[address ||| 1, dir, 0xDB]]) ∨
    (∃ dir olat v, (olat = mcp23s17.OLatA ∨ olat = mcp23s17.OLatB) ∧
      relayRequests c s address pin value =
        [[address ||| 1, dir, 0xDB], [address ||| 1, olat, 0xDB],
         [address, olat, v], [address ||| 1, olat, 0xDB]]) := by
  by_cases hpin : pin < 16
  · by_cases hd : (spiRead c s address
        (if pin ≤ 7 then mcp23s17.IoDirA else mcp23s17.IoDirB)).1.1 = 0
    · refine Or.inr (Or.inr ⟨_, _, _, ?_, relayRequests_proceed c s address pin value hpin hd⟩)
      by_cases h7 : pin ≤ 7 <;> simp [h7]
    · exact Or.inr (Or.inl ⟨_, relayRequests_abort c s address pin value hpin hd⟩)
  · left
    have h7 : ¬ pin ≤ 7 := by omega
    unfold relayRequests setRelayState
    simp [h7, hpin]

theorem spiRead_err {σ : Type} (c : Conn σ) (s : σ) (address register : Nat) :
    (c.Tx s [address ||| 1, register, 0xDB] [0, 0, 0]).1.1 =
      (spiRead c s address register).1.2 := by
  unfold spiRead
  simp only [mcp23s17.ReadCmd, List.length_cons, List.length_nil, List.replicate]
  rcases h : c.Tx s [address ||| 1, register, 0xDB] [0, 0, 0] with ⟨⟨e, r⟩, s1⟩
  cases e <;> simp

theorem spiWrite_err {σ : Type} (c : Conn σ) (s : σ) (address register value : Nat) :
    (c.Tx s [address, register, value] [0, 0, 0]).1.1 =
      (spiWrite c s address register value).1 := by
  unfold spiWrite
  simp only [List.length_cons, List.length_nil, List.replicate]
  rcases h : c.Tx s [address, register, value] [0, 0, 0] with ⟨⟨e, r⟩, s1⟩
  cases e <;> simp

/-! ## The pin loops of `main` -/

theorem relayRequests_chip {σ : Type} (c : Conn σ) (s : σ) (address pin value : Nat) :
    ∀ f ∈ relayRequests c s address pin value, f.headD 0 / 2 = address / 2 := by
  have hdiv : (address ||| 1) / 2 = address / 2 := by rw [Nat.or_div_two]; simp
  intro f hf
  rcases relayRequests_shape c s address pin value with h | ⟨dir, h⟩ | ⟨dir, olat, v, -, h⟩
  · rw [h] at hf
    simp at hf
  · rw [h] at hf
    simp only [List.mem_singleton] at hf
    subst hf
    simpa using hdiv
  · rw [h] at hf
    simp only [List.mem_cons, List.mem_singleton, List.not_mem_nil, or_false] at hf
    rcases hf with hf | hf | hf | hf <;> subst hf <;> simp [hdiv]

theorem relay_fold_half (address value dir olat : Nat) (heven : address % 2 = 0)
    (ps : List Nat)
    (hps : ∀ p ∈ ps, (p ≤ 7 ∧ dir = mcp23s17.IoDirA ∧ olat = mcp23s17.OLatA) ∨
      (8 ≤ p ∧ p < 16 ∧ dir = mcp23s17.IoDirB ∧ olat = mcp23s17.OLatB))
    (regs : Regs) (hd : regs address dir = 0) :
    (ps.foldl (fun st pin => setRelayState chipBus st address (pin % 256) value) regs)
        address olat =
      ps.foldl
        (fun x pin =>
          if value = 0 then x % 256 &&& (0xFF - 1 <<< (pin % 8))
          else x % 256 ||| 1 <<< (pin % 8))
        (regs address olat) ∧
    ∀ a reg, ¬ (a = address ∧ reg = olat) →
      (ps.foldl (fun st pin => setRelayState chipBus st address (pin % 256) value) regs)
        a reg = regs a reg := by
  induction ps generalizing regs with
  | nil => exact ⟨rfl, fun _ _ _ => rfl⟩
  | cons p ps ih =>
    have hp := hps p (List.mem_cons_self p ps)
    obtain ⟨hpin, hdir, holat⟩ := half_select hp
    have hmod : p % 256 = p := Nat.mod_eq_of_lt (by omega)
    have hd1 : regs address (if p ≤ 7 then mcp23s17.IoDirA else mcp23s17.IoDirB) = 0 := by
      rw [← hdir]
      exact hd
    have hstep := setRelayState_chipBus_even regs address p value hpin heven hd1
    have hd2 : (setRelayState chipBus regs address p value) address dir = 0 := by
      rw [hstep, hdir, storeReg_dir, ← hdir]
      exact hd
    rw [← holat] at hstep
    obtain ⟨ih1, ih2⟩ := ih (fun q hq => hps q (List.mem_cons_of_mem p hq)) _ hd2
    simp only [List.foldl_cons, hmod]
    refine ⟨?_, ?_⟩
    · rw [ih1, hstep, storeReg_same]
    · intro a reg hne
      rw [ih2 a reg hne, hstep]
      simp [storeReg, hne]

theorem relay_fold_log {σ : Type} (c : Conn σ) (address value : Nat)
    (P : List Nat → Prop)
    (hP : ∀ s pin, ∀ f ∈ relayRequests c s address pin value, P f)
    (ps : List Nat) (st : σ × List Transfer)
    (ht : ∀ f ∈ st.2.map Transfer.request, P f) :
    ∀ f ∈ (ps.foldl
        (fun st pin => setRelayState (recorder c) st address (pin % 256) value) st).2.map
          Transfer.request, P f := by
  induction ps generalizing st with
  | nil => exact ht
  | cons p ps ih =>
    simp only [List.foldl_cons]
    apply ih
    intro f hf
    obtain ⟨s, t⟩ := st
    rw [(setRelayState_recorder c s t address (p % 256) value).2, List.map_append,
      List.mem_append] at hf
    rcases hf with hf | hf
    · exact ht f hf
    · exact hP s (p % 256) f hf

theorem configureMCPChips_chipBus (regs : Regs) :
    configureMCPChips chipBus regs 0x4C mcp23s17.IoDirA = 0 ∧
    configureMCPChips chipBus regs 0x4C mcp23s17.IoDirB = 0 ∧
    ∀ a, configureMCPChips chipBus regs a mcp23s17.OLatA = regs a mcp23s17.OLatA ∧
      configureMCPChips chipBus regs a mcp23s17.OLatB = regs a mcp23s17.OLatB := by
  refine ⟨?_, ?_, ?_⟩
  · simp [configureMCPChips, spiAddressMap, List.foldl, spiWrite_chipBus, storeReg,
      mcp23s17.IoCon, mcp23s17.IoDirA, mcp23s17.IoDirB]
  · simp [configureMCPChips, spiAddressMap, List.foldl, spiWrite_chipBus, storeReg,
      mcp23s17.IoCon, mcp23s17.IoDirA, mcp23s17.IoDirB]
  · intro a
    simp [configureMCPChips, spiAddressMap, List.foldl, spiWrite_chipBus, storeReg,
      mcp23s17.IoCon, mcp23s17.IoDirA, mcp23s17.IoDirB, mcp23s17.OLatA, mcp23s17.OLatB]

theorem set_fold_lt (ps : List Nat) (x : Nat) (hx : x < 256) :
    ps.foldl (fun x pin => x % 256 ||| 1 <<< (pin % 8)) x < 256 := by
  induction ps generalizing x with
  | nil => exact hx
  | cons p ps ih =>
    simp only [List.foldl_cons]
    exact ih _ (set_byte_lt _ _ (Nat.mod_lt _ (by decide)) (Nat.mod_lt _ (by decide)))

theorem set_fold_testBit (ps : List Nat) (x i : Nat) (hi : i < 8) :
    (ps.foldl (fun x pin => x % 256 ||| 1 <<< (pin % 8)) x).testBit i =
      (x.testBit i || ps.any (fun p => decide (p % 8 = i))) := by
  induction ps generalizing x with
  | nil => simp
  | cons p ps ih =>
    have h256 : (256 : Nat) = 2 ^ 8 := by norm_num
    simp only [List.foldl_cons, List.any_cons]
    rw [ih, Nat.testBit_lor, testBit_setMask, h256, Nat.testBit_mod_two_pow]
    by_cases hp : p % 8 = i
    · simp [hp]
    · have hp2 : ¬ i = p % 8 := fun e => hp e.symm
      simp [hp, hp2, hi]

theorem latch_chain (x : Nat) (ps : List Nat)
    (hps : ps = [0, 1, 2, 3, 4, 5, 6, 7] ∨ ps = [8, 9, 10, 11, 12, 13, 14, 15]) :
    ps.foldl (fun x pin => x % 256 ||| 1 <<< (pin % 8)) x = 0xFF := by
  have hany : ∀ i, i < 8 → ps.any (fun p => decide (p % 8 = i)) = true := by
    intro i hi
    rcases hps with h | h <;> subst h <;> interval_cases i <;> decide
  have hlt : ps.foldl (fun x pin => x % 256 ||| 1 <<< (pin % 8)) x < 256 := by
    rcases hps with h | h <;> subst h <;> rw [List.foldl_cons] <;>
      exact set_fold_lt _ _
        (set_byte_lt _ _ (Nat.mod_lt _ (by decide)) (Nat.mod_lt _ (by decide)))
  apply Nat.eq_of_testBit_eq
  intro i
  have h255 : (0xFF : Nat) = 2 ^ 8 - 1 := by norm_num
  rw [h255, Nat.testBit_two_pow_sub_one]
  by_cases hi : i < 8
  · rw [set_fold_testBit ps x i hi, hany i hi]
    simp [hi]
  · rw [← testBit_byte _ i hlt]
    simp [hi]

theorem unlatch_chain (ps : List Nat)
    (hps : ps = [0, 1, 2, 3, 4, 5, 6, 7] ∨ ps = [8, 9, 10, 11, 12, 13, 14, 15]) :
    ps.foldl (fun x pin => x % 256 &&& (0xFF - 1 <<< (pin % 8))) 0xFF = 0 := by
  rcases hps with h | h <;> subst h <;> decide

theorem pinLoop_chipBus (value : Nat) (regs : Regs)
    (hA : regs 0x4C mcp23s17.IoDirA = 0) (hB : regs 0x4C mcp23s17.IoDirB = 0) :
    ((List.range 16).foldl
        (fun st pin => setRelayState chipBus st chipAddrU6 (pin % 256) value) regs)
        0x4C mcp23s17.OLatA =
      [0, 1, 2, 3, 4, 5, 6, 7].foldl
        (fun x pin =>
          if value = 0 then x % 256 &&& (0xFF - 1 <<< (pin % 8))
          else x % 256 ||| 1 <<< (pin % 8))
        (regs 0x4C mcp23s17.OLatA) ∧
    ((List.range 16).foldl
        (fun st pin => setRelayState chipBus st chipAddrU6 (pin % 256) value) regs)
        0x4C mcp23s17.OLatB =
      [8, 9, 10, 11, 12, 13, 14, 15].foldl
        (fun x pin =>
          if value = 0 then x % 256 &&& (0xFF - 1 <<< (pin % 8))
          else x % 256 ||| 1 <<< (pin % 8))
        (regs 0x4C mcp23s17.OLatB) ∧
    (∀ a reg, ¬ (a = 0x4C ∧ (reg = mcp23s17.OLatA ∨ reg = mcp23s17.OLatB)) →
      ((List.range 16).foldl
        (fun st pin => setRelayState chipBus st chipAddrU6 (pin % 256) value) regs) a reg =
        regs a reg) := by
  have hrange : List.range 16 =
      [0, 1, 2, 3, 4, 5, 6, 7] ++ [8, 9, 10, 11, 12, 13, 14, 15] := by decide
  have hlo : ∀ p ∈ [0, 1, 2, 3, 4, 5, 6, 7],
      (p ≤ 7 ∧ mcp23s17.IoDirA = mcp23s17.IoDirA ∧ mcp23s17.OLatA = mcp23s17.OLatA) ∨
      (8 ≤ p ∧ p < 16 ∧ mcp23s17.IoDirA = mcp23s17.IoDirB ∧
        mcp23s17.OLatA = mcp23s17.OLatB) := by
    intro p hp
    left
    simp only [List.mem_cons, List.mem_singleton, List.not_mem_nil, or_false] at hp
    exact ⟨by omega, rfl, rfl⟩
  have hhi : ∀ p ∈ [8, 9, 10, 11, 12, 13, 14, 15],
      (p ≤ 7 ∧ mcp23s17.IoDirB = mcp23s17.IoDirA ∧ mcp23s17.OLatB = mcp23s17.OLatA) ∨
      (8 ≤ p ∧ p < 16 ∧ mcp23s17.IoDirB = mcp23s17.IoDirB ∧
        mcp23s17.OLatB = mcp23s17.OLatB) := by
    intro p hp
    right
    simp only [List.mem_cons, List.mem_singleton, List.not_mem_nil, or_false] at hp
    exact ⟨by omega, by omega, rfl, rfl⟩
  obtain ⟨a1, a2⟩ := relay_fold_half 0x4C value mcp23s17.IoDirA mcp23s17.OLatA (by decide)
    [0, 1, 2, 3, 4, 5, 6, 7] hlo regs hA
  have hB1 : ([0, 1, 2, 3, 4, 5, 6, 7].foldl
      (fun st pin => setRelayState chipBus st 0x4C (pin % 256) value) regs)
      0x4C mcp23s17.IoDirB = 0 := by
    rw [a2 _ _ (by simp [mcp23s17.IoDirB, mcp23s17.OLatA])]
    exact hB
  obtain ⟨b1, b2⟩ := relay_fold_half 0x4C value mcp23s17.IoDirB mcp23s17.OLatB (by decide)
    [8, 9, 10, 11, 12, 13, 14, 15] hhi _ hB1
  have hU6 : chipAddrU6 = 0x4C := rfl
  rw [hrange, List.foldl_append, hU6]
  refine ⟨?_, ?_, ?_⟩
  · rw [b2 _ _ (by simp [mcp23s17.OLatB, mcp23s17.OLatA]), a1]
  · rw [b1, a2 _ _ (by simp [mcp23s17.OLatB, mcp23s17.OLatA])]
  · intro a reg hne
    have hneB : ¬ (a = 0x4C ∧ reg = mcp23s17.OLatB) := fun h => hne ⟨h.1, Or.inr h.2⟩
    have hneA : ¬ (a = 0x4C ∧ reg = mcp23s17.OLatA) := fun h => hne ⟨h.1, Or.inl h.2⟩
    rw [b2 a reg hneB, a2 a reg hneA]

/-! # Claims on configuration, errors and the run of `main` -/

/-- C11: in the requests of `configureMCPChips`, on every bus, the first six are
the I/O-config writes `[a, IoCon, 0x0C]` to the six addresses of
`spiAddressMap` in order, the remaining ones are the writes of `0x00` to
`IoDirA` and `IoDirB` of each address, and a write to a direction register
occurs only at a position after the sixth I/O-config write. -/
theorem configureMCPChips_two_pass {σ : Type} (c : Conn σ) (s : σ) :
    (configRequests c s).take 6 =
      spiAddressMap.map (fun a => [a, mcp23s17.IoCon, ioConByte]) ∧
    (configRequests c s).drop 6 =
      (spiAddressMap.map
        (fun a => [[a, mcp23s17.IoDirA, 0x00], [a, mcp23s17.IoDirB, 0x00]])).flatten ∧
    (∀ j a v, ((configRequests c s)[j]? = some [a, mcp23s17.IoDirA, v] ∨
        (configRequests c s)[j]? = some [a, mcp23s17.IoDirB, v]) → 6 ≤ j) ∧
    (∀ i a, (configRequests c s)[i]? = some [a, mcp23s17.IoCon, ioConByte] → i < 6) := by
  have h := (configureMCPChips_recorder c s []).2
  simp only [List.map_nil, List.nil_append] at h
  unfold configRequests
  rw [h]
  refine ⟨by decide, by decide, ?_, ?_⟩
  · intro j a v hj
    by_contra hlt
    have hj6 : j < 6 := by omega
    interval_cases j <;>
      simp [mcp23s17.IoDirA, mcp23s17.IoDirB] at hj
  · intro i a hi
    by_contra hge
    have h18 : i < 18 := by
      by_contra h18
      have : ([[0x40, 0x0A, 0x0C], [0x42, 0x0A, 0x0C], [0x44, 0x0A, 0x0C],
         [0x48, 0x0A, 0x0C], [0x4A, 0x0A, 0x0C], [0x4C, 0x0A, 0x0C],
         [0x40, 0x00, 0x00], [0x40, 0x01, 0x00], [0x42, 0x00, 0x00], [0x42, 0x01, 0x00],
         [0x44, 0x00, 0x00], [0x44, 0x01, 0x00], [0x48, 0x00, 0x00], [0x48, 0x01, 0x00],
         [0x4A, 0x00, 0x00], [0x4A, 0x01, 0x00], [0x4C, 0x00, 0x00], [0x4C, 0x01, 0x00]] :
           List (List Nat))[i]? = none := List.getElem?_eq_none (by simp; omega)
      rw [this] at hi
      exact Option.noConfusion hi
    interval_cases i <;> simp [mcp23s17.IoCon] at hi

/-- Witness for C11: on the register-file bus the request at position 6 is the
first direction-register write, `[0x40, IoDirA, 0x00]`. -/
theorem configureMCPChips_two_pass_witness :
    (configRequests chipBus inputRegs)[6]? = some [0x40, mcp23s17.IoDirA, 0x00] ∧ 6 ≤ 6 :=
  ⟨by decide,
   (configureMCPChips_two_pass chipBus inputRegs).2.2.1 6 0x40 0x00 (Or.inl (by decide))⟩

/-- C12: the requests of `configureMCPChips` do not depend on what the bus
answers: on every bus, whatever transfers fail, they are the same 18 write
requests in the same order as on any other bus (so as on one that never fails),
namely the six I/O-config writes and then the `IoDirA` and `IoDirB` writes of
`0x00` for each of the six addresses.  On a bus where all 18 transfers fail, all
18 are still attempted. -/
theorem configureMCPChips_no_early_abort {σ τ : Type} (c : Conn σ) (s : σ)
    (c0 : Conn τ) (s0 : τ) :
    configRequests c s = configRequests c0 s0 ∧
    configRequests c s =
      [[0x40, 0x0A, 0x0C], [0x42, 0x0A, 0x0C], [0x44, 0x0A, 0x0C],
       [0x48, 0x0A, 0x0C], [0x4A, 0x0A, 0x0C], [0x4C, 0x0A, 0x0C],
       [0x40, 0x00, 0x00], [0x40, 0x01, 0x00], [0x42, 0x00, 0x00], [0x42, 0x01, 0x00],
       [0x44, 0x00, 0x00], [0x44, 0x01, 0x00], [0x48, 0x00, 0x00], [0x48, 0x01, 0x00],
       [0x4A, 0x00, 0x00], [0x4A, 0x01, 0x00], [0x4C, 0x00, 0x00], [0x4C, 0x01, 0x00]] ∧
    (configRequests c s).length = 18 ∧
    (configureMCPChips (recorder flakyBus) ((18, inputRegs), [])).2.map Transfer.err =
      List.replicate 18 (some "transport error") ∧
    (configureMCPChips (recorder chipBus) (inputRegs, [])).2.map Transfer.err =
      List.replicate 18 none := by
  have h := (configureMCPChips_recorder c s []).2
  have h0 := (configureMCPChips_recorder c0 s0 []).2
  simp only [List.map_nil, List.nil_append] at h h0
  unfold configRequests
  refine ⟨by rw [h, h0], h, by rw [h]; rfl, by rfl, by rfl⟩

/-- C13: a transport error of the bus transfer is handed to the caller
unchanged and without a retry: if the transfer returns the error `e`, `spiWrite`
returns `e` and `spiRead` returns `(0, e)`; if the transfer succeeds, `spiWrite`
returns no error; and each call makes exactly one transfer (the log grows by one
entry and the bus is left in the state that transfer produced). -/
theorem spi_transport_error_surfaced {σ : Type} (c : Conn σ) (s s1 : σ)
    (address register value : Nat) (e : Error) (r : List Nat) :
    (c.Tx s [address, register, value] [0, 0, 0] = ((some e, r), s1) →
      spiWrite c s address register value = (some e, s1)) ∧
    (c.Tx s [address ||| 1, register, 0xDB] [0, 0, 0] = ((some e, r), s1) →
      spiRead c s address register = ((0, some e), s1)) ∧
    (c.Tx s [address, register, value] [0, 0, 0] = ((none, r), s1) →
      spiWrite c s address register value = (none, s1)) ∧
    (∀ t, (spiWrite (recorder c) (s, t) address register value).2.2.length = t.length + 1) ∧
    (∀ t, (spiRead (recorder c) (s, t) address register).2.2.length = t.length + 1) := by
  refine ⟨?_, ?_, ?_, ?_, ?_⟩
  · intro h
    simp [spiWrite, h]
  · intro h
    simp [spiRead, mcp23s17.ReadCmd, h]
  · intro h
    simp [spiWrite, h]
  · intro t
    rw [spiWrite_recorder]
    simp
  · intro t
    rw [spiRead_recorder]
    simp

/-- Witness for C13: on a bus whose next transfer fails, writing and reading
register `0x14` of chip `0x4C` both return that error after one transfer. -/
theorem spi_transport_error_surfaced_witness :
    spiWrite flakyBus (1, inputRegs) 0x4C 0x14 0x01 =
      (some "transport error", (0, inputRegs)) ∧
    spiRead flakyBus (1, inputRegs) 0x4C 0x14 =
      ((0, some "transport error"), (0, inputRegs)) ∧
    spiWrite chipBus inputRegs 0x4C 0x14 0x01 = (none, storeReg inputRegs 0x4C 0x14 0x01) :=
  ⟨(spi_transport_error_surfaced flakyBus (1, inputRegs) (0, inputRegs) 0x4C 0x14 0x01
      "transport error" [0, 0, 0]).1 rfl,
   (spi_transport_error_surfaced flakyBus (1, inputRegs) (0, inputRegs) 0x4C 0x14 0x01
      "transport error" [0, 0, 0]).2.1 rfl,
   (spi_transport_error_surfaced chipBus inputRegs (storeReg inputRegs 0x4C 0x14 0x01)
      0x4C 0x14 0x01 "" [0, 0, 0]).2.2.1 rfl⟩

/-- C14: for every address, pin, value and bus, the requests of `setRelayState`
are none at all, or the direction read alone, or the direction read, the latch
read, one write `[address, olat, v]` with `olat` one of `OLatA`, `OLatB`, and
the latch read-back.  So every request that carries the write command (low bit
of the first byte clear) goes to `OLatA` or `OLatB` of the given address, never
to `IoDirA`, `IoDirB` or another register, and every request is addressed to the
given chip. -/
theorem setRelayState_writes_only_latch {σ : Type} (c : Conn σ) (s : σ)
    (address pin value : Nat) :
    (relayRequests c s address pin value = [] ∨
      (∃ dir, relayRequests c s address pin value = [[address ||| 1, dir, 0xDB]]) ∨
      (∃ dir olat v, (olat = mcp23s17.OLatA ∨ olat = mcp23s17.OLatB) ∧
        relayRequests c s address pin value =
          [[address ||| 1, dir, 0xDB], [address ||| 1, olat, 0xDB],
           [address, olat, v], [address ||| 1, olat, 0xDB]])) ∧
    (∀ f ∈ relayRequests c s address pin value, f.headD 0 % 2 = mcp23s17.WriteCmd →
      ∃ v, f = [address, mcp23s17.OLatA, v] ∨ f = [address, mcp23s17.OLatB, v]) ∧
    (∀ f ∈ relayRequests c s address pin value, f.headD 0 / 2 = address / 2) := by
  have hodd : (address ||| 1) % 2 = 1 := Nat.or_mod_two_eq_one.mpr (Or.inr rfl)
  have hshape := relayRequests_shape c s address pin value
  refine ⟨hshape, ?_, ?_⟩
  · intro f hf hw
    rcases hshape with h | ⟨dir, h⟩ | ⟨dir, olat, v, holat, h⟩
    · rw [h] at hf
      simp at hf
    · rw [h] at hf
      simp only [List.mem_singleton] at hf
      subst hf
      simp [mcp23s17.WriteCmd, hodd] at hw
    · rw [h] at hf
      simp only [List.mem_cons, List.mem_singleton, List.not_mem_nil, or_false] at hf
      rcases hf with hf | hf | hf | hf
      · subst hf
        simp [mcp23s17.WriteCmd, hodd] at hw
      · subst hf
        simp [mcp23s17.WriteCmd, hodd] at hw
      · subst hf
        rcases holat with ho | ho
        · exact ⟨v, Or.inl (by rw [ho])⟩
        · exact ⟨v, Or.inr (by rw [ho])⟩
      · subst hf
        simp [mcp23s17.WriteCmd, hodd] at hw
  · exact relayRequests_chip c s address pin value

/-- Witness for C14: pin 12 on chip `0x4C`; the one request with the write
command is the write to `OLatB`. -/
theorem setRelayState_writes_only_latch_witness :
    [0x4C, 0x15, 0x31] ∈ relayRequests chipBus (outputRegs 0x21) 0x4C 12 1 ∧
    ∃ v, [0x4C, 0x15, 0x31] = [0x4C, mcp23s17.OLatA, v] ∨
      [0x4C, 0x15, 0x31] = [0x4C, mcp23s17.OLatB, v] :=
  ⟨by decide,
   (setRelayState_writes_only_latch chipBus (outputRegs 0x21) 0x4C 12 1).2.1
      [0x4C, 0x15, 0x31] (by decide) (by decide)⟩

/-- C15: the bank list is exactly `[0x40, 0x42, 0x44, 0x48, 0x4A, 0x4C]` (the
constants `chipAddrU1` to `chipAddrU6`) in that order; every stored address `a`
is a byte with low bit `0`, so `a ||| ReadCmd` is `a` with only the low bit
changed (`a + 1`, same upper bits), and the request `spiWrite` sends for `a`
starts with `a` itself, which is `a` with the low bit cleared. -/
theorem spiAddressMap_low_bit_clear {σ : Type} (c : Conn σ) (s : σ) :
    spiAddressMap = [0x40, 0x42, 0x44, 0x48, 0x4A, 0x4C] ∧
    spiAddressMap =
      [chipAddrU1, chipAddrU2, chipAddrU3, chipAddrU4, chipAddrU5, chipAddrU6] ∧
    (∀ a ∈ spiAddressMap,
      a % 2 = 0 ∧ a < 256 ∧
      a ||| mcp23s17.ReadCmd = a + 1 ∧
      (a ||| mcp23s17.ReadCmd) / 2 = a / 2 ∧
      (a ||| mcp23s17.ReadCmd) ^^^ a = 1 ∧
      a ||| mcp23s17.WriteCmd = a ∧
      a &&& 0xFE = a) ∧
    (∀ a ∈ spiAddressMap, ∀ reg v,
      (spiWrite (recorder c) (s, []) a reg v).2.2.map Transfer.request = [[a, reg, v]] ∧
      (spiRead (recorder c) (s, []) a reg).2.2.map Transfer.request =
        [[a + 1, reg, 0xDB]]) := by
  refine ⟨rfl, rfl, by decide, ?_⟩
  intro a ha reg v
  have h1 : a ||| 1 = a + 1 := by
    have : ∀ b ∈ spiAddressMap, b ||| 1 = b + 1 := by decide
    exact this a ha
  rw [spiWrite_recorder, spiRead_recorder, h1]
  simp

/-- Witness for C15: the last stored address, `0x4C`. -/
theorem spiAddressMap_low_bit_clear_witness :
    0x4C % 2 = 0 ∧ 0x4C < 256 ∧ 0x4C ||| mcp23s17.ReadCmd = 0x4C + 1 ∧
      (0x4C ||| mcp23s17.ReadCmd) / 2 = 0x4C / 2 ∧
      (0x4C ||| mcp23s17.ReadCmd) ^^^ 0x4C = 1 ∧
      0x4C ||| mcp23s17.WriteCmd = 0x4C ∧
      0x4C &&& 0xFE = 0x4C :=
  (spiAddressMap_low_bit_clear chipBus inputRegs).2.2.1 0x4C (by decide)

/-- C16: the I/O-config byte `ioConByte = 0x0C` is `HaEnOn ||| ODrOn`, the
combination of the hardware-addressing bit `0x08` and the open-drain bit `0x04`
of the register map; the bank, interrupt-mirror, sequential-operation, slew and
interrupt-polarity bits (and bit 0) are clear; and it is the value of the six
I/O-config writes of `configureMCPChips`. -/
theorem ioConByte_bits {σ : Type} (c : Conn σ) (s : σ) :
    ioConByte = 0x0C ∧
    ioConByte = mcp23s17.HaEnOn ||| mcp23s17.ODrOn ∧
    mcp23s17.HaEnOn = 0x08 ∧ mcp23s17.ODrOn = 0x04 ∧
    ioConByte &&& mcp23s17.BankOn = 0 ∧
    ioConByte &&& mcp23s17.IntMirrorOn = 0 ∧
    ioConByte &&& mcp23s17.SeqOpOff = 0 ∧
    ioConByte &&& mcp23s17.DisSlwOn = 0 ∧
    ioConByte &&& mcp23s17.IntPolHigh = 0 ∧
    ioConByte &&& 0x01 = 0 ∧
    ioConByte =
      mcp23s17.BankOff ||| mcp23s17.IntMirrorOff ||| mcp23s17.SeqOpOn |||
        mcp23s17.DisSlwOff ||| mcp23s17.HaEnOn ||| mcp23s17.ODrOn ||| mcp23s17.IntPolLow ∧
    (configRequests c s).take 6 =
      spiAddressMap.map
        (fun a => [a, mcp23s17.IoCon, mcp23s17.HaEnOn ||| mcp23s17.ODrOn]) := by
  have h := (configureMCPChips_recorder c s []).2
  simp only [List.map_nil, List.nil_append] at h
  refine ⟨rfl, by decide, rfl, rfl, by decide, by decide, by decide, by decide, by decide,
    by decide, by decide, ?_⟩
  unfold configRequests
  rw [h]
  decide

/-- C17: for every address, every pin in `0..15` and every value, when the
direction read succeeds with `0` and the latch read, the latch write and the
latch read-back succeed, `setRelayState` makes exactly four transfers, all
without error, in this order: read of the direction register, read of the output
latch, write of the output latch, read of the output latch.  The byte written is
computed from `prev`, the result of the second transfer, and the write is issued
from the bus state that read left, so nothing comes between them. -/
theorem setRelayState_four_transfers {σ : Type} (c : Conn σ) (s s1 s2 s3 s4 : σ)
    (address pin value dir olat prev back : Nat)
    (hsel : (pin ≤ 7 ∧ dir = mcp23s17.IoDirA ∧ olat = mcp23s17.OLatA) ∨
      (8 ≤ pin ∧ pin < 16 ∧ dir = mcp23s17.IoDirB ∧ olat = mcp23s17.OLatB))
    (h1 : spiRead c s address dir = ((0, none), s1))
    (h2 : spiRead c s1 address olat = ((prev, none), s2))
    (h3 : spiWrite c s2 address olat
      (if value = 0 then prev &&& (0xFF - (1 <<< (pin % 8)))
        else prev ||| (1 <<< (pin % 8))) = (none, s3))
    (h4 : spiRead c s3 address olat = ((back, none), s4)) :
    (setRelayState (recorder c) (s, []) address pin value).2.map Transfer.request =
      [[address ||| 1, dir, 0xDB],
       [address ||| 1, olat, 0xDB],
       [address, olat,
         if value = 0 then prev &&& (0xFF - (1 <<< (pin % 8)))
         else prev ||| (1 <<< (pin % 8))],
       [address ||| 1, olat, 0xDB]] ∧
    (setRelayState (recorder c) (s, []) address pin value).2.map Transfer.err =
      [none, none, none, none] ∧
    setRelayState c s address pin value = s4 := by
  obtain ⟨hpin, hd, ho⟩ := half_select hsel
  have hk : pin % 8 < 8 := Nat.mod_lt _ (by decide)
  have e1 := spiRead_err c s address dir
  have e2 := spiRead_err c s1 address olat
  have e3 := spiWrite_err c s2 address olat
    (if value = 0 then prev &&& (0xFF - (1 <<< (pin % 8))) else prev ||| (1 <<< (pin % 8)))
  have e4 := spiRead_err c s3 address olat
  rw [h1] at e1
  rw [h2] at e2
  rw [h3] at e3
  rw [h4] at e4
  subst hd ho
  unfold setRelayState
  by_cases h7 : pin ≤ 7
  · have hm : pin % 8 = pin := Nat.mod_eq_of_lt (by omega)
    have hk7 : pin < 8 := by omega
    simp only [h7, if_true, hm] at h1 h2 h3 h4 e1 e2 e3 e4
    simp [h7, spiRead_recorder, spiWrite_recorder, h1, h2, h3, h4, e1, e2, e3, e4, hm,
      clearMask_byte pin hk7, setMask_byte pin hk7]
  · have h8 : 8 ≤ pin := by omega
    simp only [h7, if_false] at h1 h2 h3 h4 e1 e2 e3 e4
    simp [h7, h8, hpin, spiRead_recorder, spiWrite_recorder, h1, h2, h3, h4, e1, e2, e3, e4,
      clearMask_byte _ hk, setMask_byte _ hk]

/-- Witness for C17: chip `0x4C` with all latches at `0x21`, pin 12, value 1. -/
theorem setRelayState_four_transfers_witness :
    (setRelayState (recorder chipBus) (outputRegs 0x21, []) 0x4C 12 1).2.map
        Transfer.request =
      [[0x4D, 0x01, 0xDB], [0x4D, 0x15, 0xDB], [0x4C, 0x15, 0x31], [0x4D, 0x15, 0xDB]] ∧
    (setRelayState (recorder chipBus) (outputRegs 0x21, []) 0x4C 12 1).2.map
        Transfer.err = [none, none, none, none] ∧
    setRelayState chipBus (outputRegs 0x21) 0x4C 12 1 =
      storeReg (outputRegs 0x21) 0x4C 0x15 0x31 :=
  setRelayState_four_transfers chipBus (outputRegs 0x21) (outputRegs 0x21) (outputRegs 0x21)
    (storeReg (outputRegs 0x21) 0x4C 0x15 0x31) (storeReg (outputRegs 0x21) 0x4C 0x15 0x31)
    0x4C 12 1 0x01 0x15 0x21 0x31
    (Or.inr ⟨by decide, by decide, rfl, rfl⟩) rfl rfl rfl rfl

/-- C18: on the register-file bus, from any initial register contents: after
`configureMCPChips` and the loop `setRelayState(0x4C, pin, 1)` for pin 0 to 15,
`OLatA` and `OLatB` of chip `0x4C` both hold `0xFF`; after the following loop
`setRelayState(0x4C, pin, 0)` for pin 0 to 15 both hold `0x00`; the output
latches of every other chip end as they started, and no request of the whole
run is a write `[a, OLatA, v]` or `[a, OLatB, v]` to one of the other five chip
addresses. -/
theorem main_latches_then_unlatches (regs : Regs) :
    (mainLatchLoop chipBus (configureMCPChips chipBus regs) 0x4C mcp23s17.OLatA = 0xFF ∧
      mainLatchLoop chipBus (configureMCPChips chipBus regs) 0x4C mcp23s17.OLatB = 0xFF) ∧
    (mainBus chipBus regs 0x4C mcp23s17.OLatA = 0x00 ∧
      mainBus chipBus regs 0x4C mcp23s17.OLatB = 0x00) ∧
    (∀ a, a ≠ 0x4C →
      mainBus chipBus regs a mcp23s17.OLatA = regs a mcp23s17.OLatA ∧
      mainBus chipBus regs a mcp23s17.OLatB = regs a mcp23s17.OLatB) ∧
    (∀ f ∈ mainRequests chipBus regs, ∀ a ∈ [0x40, 0x42, 0x44, 0x48, 0x4A], ∀ v,
      f ≠ [a, mcp23s17.OLatA, v] ∧ f ≠ [a, mcp23s17.OLatB, v]) := by
  obtain ⟨hA, hB, hO⟩ := configureMCPChips_chipBus regs
  obtain ⟨l1, l2, l3⟩ := pinLoop_chipBus 0x01 (configureMCPChips chipBus regs) hA hB
  simp only [OfNat.ofNat_ne_zero, one_ne_zero, if_false] at l1 l2
  rw [latch_chain _ _ (Or.inl rfl)] at l1
  rw [latch_chain _ _ (Or.inr rfl)] at l2
  have hA2 : mainLatchLoop chipBus (configureMCPChips chipBus regs) 0x4C
      mcp23s17.IoDirA = 0 := by
    unfold mainLatchLoop
    rw [l3 _ _ (by simp [mcp23s17.IoDirA, mcp23s17.OLatA, mcp23s17.OLatB])]
    exact hA
  have hB2 : mainLatchLoop chipBus (configureMCPChips chipBus regs) 0x4C
      mcp23s17.IoDirB = 0 := by
    unfold mainLatchLoop
    rw [l3 _ _ (by simp [mcp23s17.IoDirB, mcp23s17.OLatA, mcp23s17.OLatB])]
    exact hB
  obtain ⟨u1, u2, u3⟩ :=
    pinLoop_chipBus 0x0 (mainLatchLoop chipBus (configureMCPChips chipBus regs)) hA2 hB2
  simp only [if_true] at u1 u2
  have l1m : mainLatchLoop chipBus (configureMCPChips chipBus regs) 0x4C
      mcp23s17.OLatA = 0xFF := l1
  have l2m : mainLatchLoop chipBus (configureMCPChips chipBus regs) 0x4C
      mcp23s17.OLatB = 0xFF := l2
  rw [l1m, unlatch_chain _ (Or.inl rfl)] at u1
  rw [l2m, unlatch_chain _ (Or.inr rfl)] at u2
  refine ⟨⟨l1m, l2m⟩, ⟨u1, u2⟩, ?_, ?_⟩
  · intro a ha
    have hne : ∀ reg, ¬ (a = 0x4C ∧ (reg = mcp23s17.OLatA ∨ reg = mcp23s17.OLatB)) :=
      fun reg h => ha h.1
    have e1 : ∀ reg, mainBus chipBus regs a reg =
        mainLatchLoop chipBus (configureMCPChips chipBus regs) a reg :=
      fun reg => u3 a reg (hne reg)
    have e2 : ∀ reg, mainLatchLoop chipBus (configureMCPChips chipBus regs) a reg =
        configureMCPChips chipBus regs a reg :=
      fun reg => l3 a reg (hne reg)
    exact ⟨by rw [e1, e2, (hO a).1], by rw [e1, e2, (hO a).2]⟩
  · have hQ : ∀ f ∈ mainRequests chipBus regs,
        f.headD 0 / 2 = 0x4C / 2 ∨ f.getD 1 0 < 0x14 := by
      unfold mainRequests mainBus mainUnlatchLoop mainLatchLoop
      apply relay_fold_log chipBus chipAddrU6 0x0
        (fun f => f.headD 0 / 2 = 0x4C / 2 ∨ f.getD 1 0 < 0x14)
        (fun s pin f hf => Or.inl (relayRequests_chip chipBus s chipAddrU6 pin 0x0 f hf))
      apply relay_fold_log chipBus chipAddrU6 0x01
        (fun f => f.headD 0 / 2 = 0x4C / 2 ∨ f.getD 1 0 < 0x14)
        (fun s pin f hf => Or.inl (relayRequests_chip chipBus s chipAddrU6 pin 0x01 f hf))
      rw [(configureMCPChips_recorder chipBus regs []).2]
      decide
    intro f hf a ha v
    have hq := hQ f hf
    simp only [List.mem_cons, List.mem_singleton, List.not_mem_nil, or_false] at ha
    constructor
    · intro h
      subst h
      have hq2 : a / 2 = 38 ∨ (0x14 : Nat) < 0x14 := hq
      omega
    · intro h
      subst h
      have hq2 : a / 2 = 38 ∨ (0x15 : Nat) < 0x14 := hq
      omega

/-- Witness for C18: starting from direction registers at `0xFF` and latches at
`0`, chip `0x4C` is latched to `0xFF` and the latches of chip `0x40` are left
alone. -/
theorem main_latches_then_unlatches_witness :
    (mainLatchLoop chipBus (configureMCPChips chipBus inputRegs) 0x4C mcp23s17.OLatA = 0xFF ∧
      mainLatchLoop chipBus (configureMCPChips chipBus inputRegs) 0x4C mcp23s17.OLatB =
        0xFF) ∧
    (mainBus chipBus inputRegs 0x40 mcp23s17.OLatA = inputRegs 0x40 mcp23s17.OLatA ∧
      mainBus chipBus inputRegs 0x40 mcp23s17.OLatB = inputRegs 0x40 mcp23s17.OLatB) :=
  ⟨(main_latches_then_unlatches inputRegs).1,
   (main_latches_then_unlatches inputRegs).2.2.1 0x40 (by decide)⟩

end Gospi
